import Mathlib

/-
Verification of the hybrid retrieval / fusion / rerank pipeline of
`src/services/query_service.py` (functions `build_bm25_index_from_file`,
`simple_tokenizer`, `rewrite_query`, `retrieve_and_rerank`) together with the
`rank_bm25.BM25Okapi` scorer it instantiates.

Shallow-embedding conventions:
* Python floats are modelled as `ℚ`; `math.log` (used only inside `BM25Okapi`'s
  idf computation, whose numeric values no claim depends on) is abstracted as a
  parameter `logF : ℚ → ℚ`.
* Python's `ZeroDivisionError` (raised by `BM25Okapi.__init__` on an empty
  corpus and on a corpus with no terms) and exceptions escaping external
  service calls are modelled with `Except`:  a `ℚ`-division whose divisor the
  source allows to be zero is guarded by an explicit zero test that returns
  `PyError.zeroDivision`, mirroring the exception Python raises there.
* The external collaborators (Gemini text generation, SentenceTransformer
  encoding, the Pinecone index, the CrossEncoder reranker, Python's builtin
  `hash`) are parameters gathered in `Env`.  The encode / Pinecone query
  entries take the attempt number as their first argument, so that the
  environment describes what every successive call would return; the embedded
  pipeline, like the source, performs exactly one call (attempt `0`).
* Python's `sorted(..., reverse=True)` is a stable descending sort; it is
  modelled by insertion sort with the relation `keyGE` (earlier elements win
  ties), which has the same input/output behaviour.
* Python `dict`s keep insertion order; the RRF accumulator dict is modelled as
  an association list kept in insertion order (`dictUpd` appends unseen keys
  and updates seen keys in place).
-/

namespace RagSpec

/-! ### Tokenizer: `simple_tokenizer` (query_service.py line 42) -/

/-- Word characters of the regex `\w` used in `re.findall(r'\b\w+\b', ...)`:
letters, digits and underscore. -/
def isWordChar (c : Char) : Bool :=
  c.isAlphanum || c = '_'

/-- Accumulating scanner extracting maximal runs of word characters.  The
second argument holds the reversed run currently being read. -/
def tokAux : List Char → List Char → List String
  | [], acc => if acc.isEmpty then [] else [String.mk acc.reverse]
  | c :: cs, acc =>
    if isWordChar c then tokAux cs (c :: acc)
    else if acc.isEmpty then tokAux cs []
    else String.mk acc.reverse :: tokAux cs []

/-- `simple_tokenizer(text)`: lower-case the text and return the maximal runs
of word characters, in order (`re.findall(r'\b\w+\b', text.lower())`). -/
def simple_tokenizer (text : String) : List String :=
  tokAux (text.data.map Char.toLower) []

/-! ### Stable descending sort, modelling Python `sorted(..., reverse=True)` -/

/-- Relation sorting by a `ℚ`-valued key in descending order; insertion sort
with this relation is stable exactly like Python's `sorted(.., reverse=True)`:
among equal keys earlier input elements come first. -/
def keyGE {α : Type} (key : α → ℚ) : α → α → Prop :=
  fun x y => key y ≤ key x

instance {α : Type} (key : α → ℚ) : DecidableRel (keyGE key) :=
  fun a b => inferInstanceAs (Decidable (key b ≤ key a))

instance {α : Type} (key : α → ℚ) : IsTotal α (keyGE key) :=
  ⟨fun a b => le_total (key b) (key a)⟩

instance {α : Type} (key : α → ℚ) : IsTrans α (keyGE key) :=
  ⟨fun _ _ _ h1 h2 => le_trans h2 h1⟩

/-- Python's `sorted(l, key=key, reverse=True)`: stable sort by `key`
descending. -/
def pySortDesc {α : Type} (key : α → ℚ) (l : List α) : List α :=
  List.insertionSort (keyGE key) l

/-! ### Association lists, modelling Python `dict` lookups -/

/-- First-match association-list lookup (Python `d[k]` / `d.get(k)` /
`k in d`). -/
def alookup {β : Type} (k : String) : List (String × β) → Option β
  | [] => none
  | (a, b) :: es => if k = a then some b else alookup k es

/-! ### Data model -/

/-- One retrieval hit: the Python dicts
`{'id': ..., 'score': ..., 'metadata': {'full_content': ...}}` built for BM25
hits and returned by the Pinecone query (only the `full_content` field of the
metadata is ever read by the pipeline). -/
structure Hit where
  id : String
  score : ℚ
  content : String
deriving DecidableEq

/-- One entry of the RRF accumulator: `{'score': ..., 'metadata': ...}`. -/
structure Fused where
  score : ℚ
  content : String
deriving DecidableEq

/-- Exceptions the embedded pipeline can raise: Python's `ZeroDivisionError`
(from `BM25Okapi` initialisation) and an exception escaping the embedding or
Pinecone call. -/
inductive PyError where
  | zeroDivision
  | externalFailure
deriving DecidableEq

/-! ### BM25 index: `rank_bm25.BM25Okapi` as instantiated by
`build_bm25_index_from_file` (query_service.py lines 29-39) -/

/-- BM25Okapi constant `k1 = 1.5`. -/
def bm25K1 : ℚ := 3 / 2

/-- BM25Okapi constant `b = 0.75`. -/
def bm25B : ℚ := 3 / 4

/-- BM25Okapi constant `epsilon = 0.25`. -/
def bm25Epsilon : ℚ := 1 / 4

/-- Increment a counter dict entry, inserting it (at the end, in Python dict
insertion order) when absent. -/
def bumpCount (m : List (String × ℕ)) (w : String) : List (String × ℕ) :=
  if (alookup w m).isSome then
    m.map (fun kv => if kv.1 = w then (kv.1, kv.2 + 1) else kv)
  else m ++ [(w, 1)]

/-- Per-document term frequencies (the `frequencies` dict of
`BM25Okapi._initialize`). -/
def termFreqs (doc : List String) : List (String × ℕ) :=
  doc.foldl bumpCount []

/-- Number of documents containing each term (the `nd` dict of
`BM25Okapi._initialize`): for every document, each distinct term of that
document counts once. -/
def computeNd (dfs : List (List (String × ℕ))) : List (String × ℕ) :=
  dfs.foldl (fun nd freqs => freqs.foldl (fun nd2 kv => bumpCount nd2 kv.1) nd) []

/-- `BM25Okapi._calc_idf`: `idf(w) = log(N - df + 0.5) - log(df + 0.5)`;
negative idfs are replaced by `epsilon * average_idf`.  The division
`idf_sum / len(self.idf)` raises `ZeroDivisionError` when the corpus has no
terms at all. -/
def calcIdf (logF : ℚ → ℚ) (corpusSize : ℕ) (nd : List (String × ℕ)) :
    Except PyError (List (String × ℚ)) :=
  let idf0 := nd.map fun kv =>
    (kv.1, logF ((corpusSize : ℚ) - (kv.2 : ℚ) + 1 / 2) - logF ((kv.2 : ℚ) + 1 / 2))
  if idf0.length = 0 then .error .zeroDivision
  else
    let idfSum := (idf0.map Prod.snd).sum
    let averageIdf := idfSum / (idf0.length : ℚ)
    let eps := bm25Epsilon * averageIdf
    .ok (idf0.map fun kv => if kv.2 < 0 then (kv.1, eps) else kv)

/-- The state `BM25Okapi.__init__` builds over a tokenized corpus. -/
structure Bm25Index where
  corpusSize : ℕ
  docFreqs : List (List (String × ℕ))
  docLen : List ℕ
  avgdl : ℚ
  idf : List (String × ℚ)
deriving DecidableEq

/-- `BM25Okapi(tokenized_corpus)`: computes document lengths, per-document
frequencies, document frequency per term, average document length and idfs.
The division `num_doc / self.corpus_size` raises `ZeroDivisionError` on an
empty corpus. -/
def buildOkapi (logF : ℚ → ℚ) (tokenizedCorpus : List (List String)) :
    Except PyError Bm25Index :=
  let corpusSize := tokenizedCorpus.length
  let docLen := tokenizedCorpus.map List.length
  let numDoc := docLen.sum
  if corpusSize = 0 then .error .zeroDivision
  else
    let avgdl := (numDoc : ℚ) / (corpusSize : ℚ)
    let docFreqs := tokenizedCorpus.map termFreqs
    let nd := computeNd docFreqs
    match calcIdf logF corpusSize nd with
    | .error e => .error e
    | .ok idf => .ok ⟨corpusSize, docFreqs, docLen, avgdl, idf⟩

/-- One document's contribution for one query term inside
`BM25Okapi.get_scores`:
`idf[q] * (f * (k1+1)) / (f + k1 * (1 - b + b * dl / avgdl))` with `f` the
term frequency in the document (0 when absent; absent idfs also contribute
0, matching `self.idf.get(q) or 0`). -/
def termDocScore (idx : Bm25Index) (q : String) (freqs : List (String × ℕ)) (dl : ℕ) : ℚ :=
  let f : ℚ := (((alookup q freqs).getD 0 : ℕ) : ℚ)
  let idfV : ℚ := (alookup q idx.idf).getD 0
  idfV * (f * (bm25K1 + 1) / (f + bm25K1 * (1 - bm25B + bm25B * (dl : ℚ) / idx.avgdl)))

/-- `BM25Okapi.get_scores(query)`: starts from a zero vector of length
`corpus_size` and adds every query term's per-document contribution. -/
def get_scores (idx : Bm25Index) (query : List String) : List ℚ :=
  query.foldl
    (fun score q =>
      List.zipWith (fun s fd => s + termDocScore idx q fd.1 fd.2) score
        (idx.docFreqs.zip idx.docLen))
    (List.replicate idx.corpusSize 0)

/-- Keyword-search branch of `retrieve_and_rerank` (lines 99-104): tokenize
the rewritten question, score every corpus document, sort the document indices
by score descending (Python's stable `sorted(range(len(scores)), ...)`), keep
the first `top_k` and materialise them as hits. -/
def lexical_search (idx : Bm25Index) (corpus : List String) (rewritten : String)
    (topK : ℕ) : List Hit :=
  let toks := simple_tokenizer rewritten
  let scores := get_scores idx toks
  let results := (pySortDesc (fun i => scores.getD i 0) (List.range scores.length)).take topK
  results.map fun i => ⟨"bm25_" ++ toString i, scores.getD i 0, corpus.getD i ""⟩

/-! ### Query rewriting: `rewrite_query` (lines 76-86) -/

/-- `rewrite_query(question)`: on a successful generation call returns
`response.text.strip()`; when the call (or the `.text` access) raises, the
`except` branch returns the original question unchanged. -/
def rewrite_query (genText : Except Unit String) (question : String) : String :=
  match genText with
  | .ok t => t.trim
  | .error _ => question

/-! ### Reciprocal Rank Fusion (lines 112-130) -/

/-- RRF contribution of a hit at 0-based `rank`: `1 / (k + rank + 1)` with
`k = 60`. -/
def rrfContrib (rank : ℕ) : ℚ :=
  1 / (60 + (rank : ℚ) + 1)

/-- Key used for BM25 hits in the fusion dict:
`f"content_{hash(doc_content)}"`. -/
def bmKey (hashF : String → Int) (content : String) : String :=
  "content_" ++ toString (hashF content)

/-- One fusion-loop body: `if doc_id not in fused_results: fused_results[
doc_id] = {'score': 0, 'metadata': ...}` followed by
`fused_results[doc_id]['score'] += contrib`.  A key already present keeps its
position and its first metadata; a new key is appended. -/
def dictUpd (d : List (String × Fused)) (key content : String) (c : ℚ) :
    List (String × Fused) :=
  if (alookup key d).isSome then
    d.map fun kv => if kv.1 = key then (kv.1, ⟨kv.2.score + c, kv.2.content⟩) else kv
  else d ++ [(key, ⟨c, content⟩)]

/-- `for rank, hit in enumerate(hits): ...` over a list of
(fusion key, content) pairs, starting at rank `rank`. -/
def rrfLoop : List (String × String) → ℕ → List (String × Fused) → List (String × Fused)
  | [], _, d => d
  | (key, content) :: rest, rank, d =>
    rrfLoop rest (rank + 1) (dictUpd d key content (rrfContrib rank))

/-- Fusion keys and contents of the Pinecone hits: `doc_id = hit['id']`. -/
def pineconeItems (pineconeHits : List Hit) : List (String × String) :=
  pineconeHits.map fun h => (h.id, h.content)

/-- Fusion keys and contents of the BM25 hits:
`doc_id = f"content_{hash(hit['metadata']['full_content'])}"`. -/
def bm25Items (hashF : String → Int) (bm25Hits : List Hit) : List (String × String) :=
  bm25Hits.map fun h => (bmKey hashF h.content, h.content)

/-- The fully populated `fused_results` dict: first the Pinecone loop, then
the BM25 loop, both with ranks starting at 0. -/
def fused_results (hashF : String → Int) (pineconeHits bm25Hits : List Hit) :
    List (String × Fused) :=
  rrfLoop (bm25Items hashF bm25Hits) 0 (rrfLoop (pineconeItems pineconeHits) 0 [])

/-- `sorted(fused_results.values(), key=lambda x: x['score'], reverse=True)`. -/
def sorted_fused_results (hashF : String → Int) (pineconeHits bm25Hits : List Hit) :
    List Fused :=
  pySortDesc Fused.score ((fused_results hashF pineconeHits bm25Hits).map Prod.snd)

/-- Total RRF mass a fusion key collects from one hit list: the sum of
`rrfContrib rank` over the 0-based ranks (starting at `rank`) whose hit
carries that key. -/
def rrfSumKC : List (String × String) → String → ℕ → ℚ
  | [], _, _ => 0
  | (key, _) :: rest, k, rank =>
    (if key = k then rrfContrib rank else 0) + rrfSumKC rest k (rank + 1)

/-! ### Reranking and final selection (lines 132-147) -/

/-- Reranking step (lines 139-143): pair every pooled content with the
cross-encoder score of `[question, content]` and stable-sort by score
descending.  `cs` models `rerank_model.predict`, which returns one score per
pair in input order. -/
def rerank_step (question : String) (pool : List String) (cs : String → String → ℚ) :
    List (String × ℚ) :=
  pySortDesc Prod.snd (pool.zip (pool.map (cs question)))

/-- Final context selection (line 145):
`[content for content, score in reranked_results[:final_k]]`. -/
def select_final (reranked : List (String × ℚ)) (finalK : ℕ) : List String :=
  (reranked.take finalK).map Prod.fst

/-! ### The orchestrated pipeline `retrieve_and_rerank` (lines 88-147) -/

/-- External collaborators and process inputs of one pipeline run.
`encodeResp`/`pineconeResp` take the attempt number first: the source makes
exactly one call (attempt 0), so further entries describe what a retry would
have returned. -/
structure Env where
  fileData : List String
  genText : Except Unit String
  encodeResp : ℕ → String → Except Unit (List ℚ)
  pineconeResp : ℕ → List ℚ → ℕ → Except Unit (List Hit)
  crossScore : String → String → ℚ
  hashF : String → Int
  logF : ℚ → ℚ

/-- The module-level globals `corpus` and `bm25_index` of query_service.py. -/
structure PipeState where
  corpusG : List String
  bm25G : Option Bm25Index

/-- Lazy index construction (lines 93-94 calling
`build_bm25_index_from_file`): when the global index is absent, load the
corpus from the dataset file and build `BM25Okapi` over it.  The `corpus`
global is assigned before the constructor runs, so it is updated even when
construction raises. -/
def ensureIndex (st : PipeState) (env : Env) :
    Except PyError (Bm25Index × List String) × PipeState :=
  match st.bm25G with
  | some idx => (.ok (idx, st.corpusG), st)
  | none =>
    let corpus := env.fileData
    match buildOkapi env.logF (corpus.map simple_tokenizer) with
    | .error e => (.error e, ⟨corpus, none⟩)
    | .ok idx => (.ok (idx, corpus), ⟨corpus, some idx⟩)

/-- Pipeline body after query rewriting (lines 99-147): BM25 search, dense
search (embedding then Pinecone query, each one call, exceptions propagating),
RRF fusion, truncation to the rerank pool of size `top_k + 5`, reranking
against the original question, and final truncation to `final_k`. -/
def retrieveAfterRewrite (env : Env) (idx : Bm25Index) (corpus : List String)
    (question rewritten : String) (topK finalK : ℕ) : Except PyError (List String) :=
  let bmHits := lexical_search idx corpus rewritten topK
  match env.encodeResp 0 rewritten with
  | .error _ => .error .externalFailure
  | .ok emb =>
    match env.pineconeResp 0 emb topK with
    | .error _ => .error .externalFailure
    | .ok pHits =>
      let fused := sorted_fused_results env.hashF pHits bmHits
      let pool := (fused.take (topK + 5)).map Fused.content
      if pool.isEmpty then .ok []
      else .ok (select_final (rerank_step question pool env.crossScore) finalK)

/-- `retrieve_and_rerank(question, top_k=10, final_k=3)` with its effect on
the module globals: ensure the index exists, rewrite the query, then run the
retrieval body. -/
def retrieve_and_rerank (env : Env) (st : PipeState) (question : String)
    (topK finalK : ℕ) : Except PyError (List String) × PipeState :=
  match ensureIndex st env with
  | (.error e, st2) => (.error e, st2)
  | (.ok (idx, corpus), st2) =>
    let rewritten := rewrite_query env.genText question
    (retrieveAfterRewrite env idx corpus question rewritten topK finalK, st2)

instance {ε α : Type} [DecidableEq ε] [DecidableEq α] : DecidableEq (Except ε α) :=
  fun a b =>
    match a, b with
    | .error x, .error y => decidable_of_iff (x = y) (by simp)
    | .error _, .ok _ => .isFalse (by simp)
    | .ok _, .error _ => .isFalse (by simp)
    | .ok x, .ok y => decidable_of_iff (x = y) (by simp)

/-! ### Concrete test fixtures -/

/-- Concrete environment whose corpus chunk `"dup content"` is returned both
by the dense search (Pinecone id `dense_0`) and by the BM25 search (content
key); external calls all succeed. -/
def envDup : Env :=
  { fileData := ["dup content"]
    genText := .error ()
    encodeResp := fun _ _ => .ok [1]
    pineconeResp := fun _ _ _ => .ok [⟨"dense_0", 9 / 10, "dup content"⟩]
    crossScore := fun _ _ => 1
    hashF := fun _ => 0
    logF := fun _ => 0 }

/-- Concrete environment with an empty dataset file (empty corpus). -/
def envEmptyCorpus : Env :=
  { fileData := []
    genText := .error ()
    encodeResp := fun _ _ => .ok [1]
    pineconeResp := fun _ _ _ => .ok []
    crossScore := fun _ _ => 1
    hashF := fun _ => 0
    logF := fun _ => 0 }

/-- Concrete environment whose embedding call fails on the first attempt but
would succeed on any later attempt; everything else succeeds. -/
def envRetry : Env :=
  { fileData := ["alpha beta"]
    genText := .error ()
    encodeResp := fun n _ => if n = 0 then .error () else .ok [1]
    pineconeResp := fun _ _ _ => .ok [⟨"dense_0", 1, "alpha beta"⟩]
    crossScore := fun _ _ => 1
    hashF := fun _ => 0
    logF := fun _ => 0 }

/-- A concrete prebuilt index over the one-chunk corpus `["alpha beta"]`
(what `buildOkapi (fun _ => 0)` produces for it). -/
def idxAB : Bm25Index :=
  ⟨1, [[("alpha", 1), ("beta", 1)]], [2], 2, [("alpha", 0), ("beta", 0)]⟩

/-- Module state in which the index over `["alpha beta"]` is already built. -/
def stateAB : PipeState :=
  ⟨["alpha beta"], some idxAB⟩

/-! ### Lemmas about the stable descending sort -/

theorem sorted_pySortDesc {α : Type} (key : α → ℚ) (l : List α) :
    List.Sorted (keyGE key) (pySortDesc key l) :=
  List.sorted_insertionSort _ _

theorem perm_pySortDesc {α : Type} (key : α → ℚ) (l : List α) :
    (pySortDesc key l).Perm l :=
  List.perm_insertionSort _ _

theorem filter_orderedInsert_keyEq {α : Type} (key : α → ℚ) (q : ℚ) (a : α)
    (l : List α) :
    (List.orderedInsert (keyGE key) a l).filter (fun x => decide (key x = q)) =
      if key a = q then a :: l.filter (fun x => decide (key x = q))
      else l.filter (fun x => decide (key x = q)) := by
  induction l with
  | nil =>
    by_cases h : key a = q <;> simp [List.orderedInsert, List.filter, h]
  | cons b t ih =>
    simp only [List.orderedInsert]
    by_cases hab : keyGE key a b
    · rw [if_pos hab]
      by_cases ha : key a = q <;> simp [List.filter, ha]
    · rw [if_neg hab]
      have hlt : key a < key b := lt_of_not_le hab
      by_cases ha : key a = q
      · have hb : ¬ key b = q := by
          intro hbq
          exact absurd (hbq.trans ha.symm) (ne_of_gt hlt)
        simp [List.filter, ha, hb, ih]
      · by_cases hb : key b = q <;> simp [List.filter, ha, hb, ih]

theorem filter_pySortDesc {α : Type} (key : α → ℚ) (q : ℚ) (l : List α) :
    (pySortDesc key l).filter (fun x => decide (key x = q)) =
      l.filter (fun x => decide (key x = q)) := by
  induction l with
  | nil => rfl
  | cons a t ih =>
    simp only [pySortDesc, List.insertionSort] at ih ⊢
    rw [filter_orderedInsert_keyEq key q a _]
    by_cases ha : key a = q <;> simp [List.filter, ha, ih]

theorem pySortDesc_const {α : Type} (key : α → ℚ) (c : ℚ) (l : List α)
    (hk : ∀ x ∈ l, key x = c) : pySortDesc key l = l := by
  induction l with
  | nil => rfl
  | cons a t ih =>
    have ht : ∀ x ∈ t, key x = c := fun x hx => hk x (List.mem_cons_of_mem a hx)
    simp only [pySortDesc, List.insertionSort]
    rw [show List.insertionSort (keyGE key) t = t from ih ht]
    cases t with
    | nil => rfl
    | cons b t2 =>
      have hle : keyGE key a b := by
        show key b ≤ key a
        rw [hk b (by simp), hk a (by simp)]
      exact List.orderedInsert_of_le (keyGE key) _ hle

/-! ### Lemmas about the RRF accumulator dict -/

theorem alookup_map_upd (d : List (String × Fused)) (key : String) (g : Fused → Fused)
    (k : String) :
    alookup k (d.map fun kv => if kv.1 = key then (kv.1, g kv.2) else kv) =
      if k = key then (alookup key d).map g else alookup k d := by
  induction d with
  | nil => by_cases h : k = key <;> simp [alookup, h]
  | cons ab t ih =>
    obtain ⟨a, b⟩ := ab
    by_cases hak : a = key
    · subst hak
      have hhead : (if (a, b).1 = a then ((a, b).1, g (a, b).2) else (a, b)) = (a, g b) := by
        simp
      rw [List.map_cons, hhead]
      by_cases hka : k = a <;> simp [alookup, hka, ih]
    · have hhead : (if (a, b).1 = key then ((a, b).1, g (a, b).2) else (a, b)) = (a, b) := by
        simp [hak]
      rw [List.map_cons, hhead]
      by_cases hka : k = a
      · subst hka
        simp [alookup, hak]
      · simp [alookup, hka, ih, show ¬ key = a from fun h => hak h.symm]

theorem alookup_append {β : Type} (k : String) (d1 d2 : List (String × β)) :
    alookup k (d1 ++ d2) =
      match alookup k d1 with
      | some v => some v
      | none => alookup k d2 := by
  induction d1 with
  | nil => simp [alookup]
  | cons ab t ih =>
    obtain ⟨a, b⟩ := ab
    by_cases h : k = a <;> simp [alookup, h, ih]

theorem alookup_dictUpd (d : List (String × Fused)) (key content : String) (c : ℚ)
    (k : String) :
    alookup k (dictUpd d key content c) =
      if k = key then
        match alookup key d with
        | some f => some ⟨f.score + c, f.content⟩
        | none => some ⟨c, content⟩
      else alookup k d := by
  unfold dictUpd
  rcases hd : alookup key d with _ | f
  · simp only [Option.isSome_none, Bool.false_eq_true, if_false]
    rw [alookup_append]
    by_cases hk : k = key
    · subst hk
      rw [hd]
      simp [alookup]
    · rcases hkd : alookup k d with _ | v <;> simp [alookup, hk, hkd]
  · simp only [Option.isSome_some, if_true]
    rw [alookup_map_upd d key (fun f => ⟨f.score + c, f.content⟩) k]
    by_cases hk : k = key <;> simp [hk, hd]

theorem alookup_rrfLoop (items : List (String × String)) (r : ℕ)
    (d : List (String × Fused)) (k : String) :
    alookup k (rrfLoop items r d) =
      match alookup k d with
      | some f => some ⟨f.score + rrfSumKC items k r, f.content⟩
      | none =>
        match items.find? (fun it => decide (it.1 = k)) with
        | some it => some ⟨rrfSumKC items k r, it.2⟩
        | none => none := by
  induction items generalizing r d with
  | nil =>
    simp only [rrfLoop, rrfSumKC]
    rcases alookup k d with _ | f
    · simp [List.find?]
    · simp
  | cons it rest ih =>
    obtain ⟨key, content⟩ := it
    simp only [rrfLoop]
    rw [ih, alookup_dictUpd]
    by_cases hk : k = key
    · subst hk
      rcases hd : alookup k d with _ | f
      · simp [rrfSumKC, List.find?]
      · simp [rrfSumKC, add_assoc]
    · have hk2 : ¬ key = k := fun h => hk h.symm
      rcases hd : alookup k d with _ | f
      · simp [rrfSumKC, List.find?, hk, hk2, zero_add]
      · simp [rrfSumKC, hk, hk2, zero_add]

theorem rrfSumKC_eq_zero (items : List (String × String)) (k : String) (r : ℕ)
    (h : ∀ it ∈ items, it.1 ≠ k) : rrfSumKC items k r = 0 := by
  induction items generalizing r with
  | nil => rfl
  | cons it rest ih =>
    obtain ⟨key, content⟩ := it
    have h1 : ¬ key = k := h (key, content) (by simp)
    have h2 := ih (r + 1) (fun x hx => h x (List.mem_cons_of_mem _ hx))
    simp [rrfSumKC, h1, h2]

/-! ### Claim theorems -/

/-- Claim C2: in the fusion step every hit at 0-based rank `r` contributes
`1/(60+r+1)` to the fused score of its fusion key; contributions accumulate
additively over both hit lists (a key occurring in only one list gets that
list's sum alone, the other sum being 0), a key absent from both lists gets no
fused candidate, and the fused candidate list is sorted by fused score
descending. -/
theorem rrf_fusion_scores (hashF : String → Int) (pineconeHits bm25Hits : List Hit)
    (key : String) :
    ((alookup key (fused_results hashF pineconeHits bm25Hits)).map Fused.score =
      if (pineconeItems pineconeHits).any (fun it => decide (it.1 = key))
          || (bm25Items hashF bm25Hits).any (fun it => decide (it.1 = key)) then
        some (rrfSumKC (pineconeItems pineconeHits) key 0 +
          rrfSumKC (bm25Items hashF bm25Hits) key 0)
      else none)
    ∧ List.Sorted (keyGE Fused.score) (sorted_fused_results hashF pineconeHits bm25Hits) := by
  constructor
  · unfold fused_results
    rw [alookup_rrfLoop, alookup_rrfLoop]
    have hnil : alookup key ([] : List (String × Fused)) = none := rfl
    rw [hnil]
    rcases hP : (pineconeItems pineconeHits).find? (fun it => decide (it.1 = key)) with _ | itP
    · have hPz : rrfSumKC (pineconeItems pineconeHits) key 0 = 0 := by
        apply rrfSumKC_eq_zero
        intro it hit
        have := List.find?_eq_none.mp hP it hit
        simpa using this
      have hPany : (pineconeItems pineconeHits).any (fun it => decide (it.1 = key)) = false := by
        rw [List.any_eq_false]
        intro it hit
        have := List.find?_eq_none.mp hP it hit
        simpa using this
      rcases hB : (bm25Items hashF bm25Hits).find? (fun it => decide (it.1 = key)) with _ | itB
      · have hBany : (bm25Items hashF bm25Hits).any (fun it => decide (it.1 = key)) = false := by
          rw [List.any_eq_false]
          intro it hit
          have := List.find?_eq_none.mp hB it hit
          simpa using this
        simp [hP, hB, hPany, hBany]
      · have hBany : (bm25Items hashF bm25Hits).any (fun it => decide (it.1 = key)) = true := by
          rw [List.any_eq_true]
          refine ⟨itB, List.mem_of_find?_eq_some hB, ?_⟩
          have := List.find?_some hB
          simpa using this
        simp [hP, hB, hPany, hBany, hPz]
    · have hPany : (pineconeItems pineconeHits).any (fun it => decide (it.1 = key)) = true := by
        rw [List.any_eq_true]
        refine ⟨itP, List.mem_of_find?_eq_some hP, ?_⟩
        have := List.find?_some hP
        simpa using this
      simp [hP, hPany]
  · exact sorted_pySortDesc _ _

/-- Claim C1 (evaluation at the failing input): when the same chunk text is
returned by both searches at rank 0 — as a Pinecone hit with vector-store id
`dense_0` and as a BM25 hit keyed by the content hash — the fusion dict holds
TWO candidates for that one chunk text, each with score `1/61`, instead of the
single collapsed candidate with the summed score `2/61` the claim requires. -/
theorem fusion_identity_mismatch_eval :
    fused_results (fun _ => 0) [⟨"dense_0", 9 / 10, "same text"⟩] [⟨"bm25_0", 0, "same text"⟩] =
      [("dense_0", ⟨1 / 61, "same text"⟩), ("content_0", ⟨1 / 61, "same text"⟩)] := by
  with_unfolding_all decide

/-- Claim C3 (amended): when the query tokenizes to no terms the lexical
branch never raises, but it does not return an empty list: every corpus
document scores 0, the stable sort leaves the indices in corpus order, and the
branch returns hits for the first `min topK corpusSize` documents, each with
score 0. -/
theorem lexical_empty_query_behavior (idx : Bm25Index) (corpus : List String)
    (rewritten : String) (topK : ℕ) (h : simple_tokenizer rewritten = []) :
    lexical_search idx corpus rewritten topK =
      ((List.range idx.corpusSize).take topK).map
        (fun i => ⟨"bm25_" ++ toString i, 0, corpus.getD i ""⟩) := by
  have hk : ∀ i : ℕ, (List.replicate idx.corpusSize (0 : ℚ)).getD i 0 = 0 := by
    intro i
    rcases lt_or_ge i idx.corpusSize with hlt | hge
    · rw [List.getD_eq_getElem?_getD, List.getElem?_replicate, if_pos hlt]
      rfl
    · rw [List.getD_eq_getElem?_getD, List.getElem?_replicate, if_neg (not_lt.mpr hge)]
      rfl
  simp only [lexical_search]
  rw [h]
  have hsc : get_scores idx [] = List.replicate idx.corpusSize 0 := rfl
  rw [hsc]
  rw [pySortDesc_const _ 0 _ (fun x _ => hk x)]
  rw [List.length_replicate]
  exact List.map_congr_left (fun i _ => by rw [hk i])

/-- Claim C3 witness: the amended behaviour at a concrete index over the
corpus `["alpha beta"]` with an all-punctuation query. -/
theorem lexical_empty_query_behavior_witness :
    lexical_search idxAB ["alpha beta"] "!!!" 1 = [⟨"bm25_0", 0, "alpha beta"⟩] :=
  (lexical_empty_query_behavior idxAB ["alpha beta"] "!!!" 1 (by decide)).trans
    (by with_unfolding_all decide)

/-- Claim C3 counterexample: the query `"!!!"` tokenizes to no terms, yet the
lexical branch over the one-document corpus `["hello world"]` returns one
zero-score hit, not the empty list required by the claim. -/
theorem lexical_empty_query_cex :
    simple_tokenizer "!!!" = []
    ∧ (buildOkapi (fun _ => 0) (["hello world"].map simple_tokenizer)).map
        (fun idx => lexical_search idx ["hello world"] "!!!" 10) =
      Except.ok [⟨"bm25_0", 0, "hello world"⟩]
    ∧ Except.ok [(⟨"bm25_0", 0, "hello world"⟩ : Hit)] ≠
        (Except.ok ([] : List Hit) : Except PyError (List Hit)) := by
  refine ⟨by decide, by with_unfolding_all decide, by with_unfolding_all decide⟩

/-- Claim C4: the reranking step returns a permutation of its input pool (no
candidate added or dropped), sorted by the model-assigned relevance score
descending, with ties left in input (fusion) order: for every score value the
tied entries appear exactly as they did in the scored input. -/
theorem rerank_perm_sorted_stable (question : String) (pool : List String)
    (cs : String → String → ℚ) :
    ((rerank_step question pool cs).map Prod.fst).Perm pool
    ∧ List.Sorted (keyGE Prod.snd) (rerank_step question pool cs)
    ∧ ∀ q : ℚ, (rerank_step question pool cs).filter (fun x => decide (x.2 = q)) =
        (pool.zip (pool.map (cs question))).filter (fun x => decide (x.2 = q)) := by
  refine ⟨?_, sorted_pySortDesc _ _, fun q => filter_pySortDesc Prod.snd q _⟩
  have h1 : (rerank_step question pool cs).Perm (pool.zip (pool.map (cs question))) :=
    perm_pySortDesc _ _
  have h2 := h1.map Prod.fst
  have h3 : (pool.zip (pool.map (cs question))).map Prod.fst = pool :=
    List.map_fst_zip _ _ (by simp)
  rw [h3] at h2
  exact h2

/-- Claim C5: when the text-generation call fails, `rewrite_query` returns
the original question unchanged, and the pipeline run equals the retrieval
body run with the original question as the search query — the failure is
absorbed, never surfaced. -/
theorem rewrite_failure_fallback (env : Env) (st : PipeState) (idx : Bm25Index)
    (question : String) (topK finalK : ℕ) (u : Unit)
    (hgen : env.genText = .error u) (hidx : st.bm25G = some idx) :
    rewrite_query env.genText question = question
    ∧ retrieve_and_rerank env st question topK finalK =
        (retrieveAfterRewrite env idx st.corpusG question question topK finalK, st) := by
  have h1 : rewrite_query env.genText question = question := by
    rw [hgen]
    rfl
  refine ⟨h1, ?_⟩
  rcases st with ⟨corpusG, bm25G⟩
  simp only [PipeState.bm25G] at hidx
  subst hidx
  simp [retrieve_and_rerank, ensureIndex, h1]

/-- Claim C5 witness: the fallback at a concrete failing environment. -/
theorem rewrite_failure_fallback_witness :
    rewrite_query envRetry.genText "q" = "q"
    ∧ retrieve_and_rerank envRetry stateAB "q" 10 3 =
        (retrieveAfterRewrite envRetry idxAB stateAB.corpusG "q" "q" 10 3, stateAB) :=
  rewrite_failure_fallback envRetry stateAB idxAB "q" 10 3 () rfl rfl

/-- Claim C6 (amended): when the embedding call or the Pinecone query fails,
the failure propagates out of `retrieve_and_rerank` as an error — it is never
converted into a silently empty result — and no retry of the failed call is
performed. -/
theorem retrieval_error_propagates (env : Env) (st : PipeState) (idx : Bm25Index)
    (question : String) (topK finalK : ℕ) (hidx : st.bm25G = some idx) :
    (∀ e : Unit, env.encodeResp 0 (rewrite_query env.genText question) = .error e →
      (retrieve_and_rerank env st question topK finalK).1 = .error .externalFailure)
    ∧ (∀ (emb : List ℚ) (e : Unit),
        env.encodeResp 0 (rewrite_query env.genText question) = .ok emb →
        env.pineconeResp 0 emb topK = .error e →
        (retrieve_and_rerank env st question topK finalK).1 = .error .externalFailure) := by
  rcases st with ⟨corpusG, bm25G⟩
  simp only [PipeState.bm25G] at hidx
  subst hidx
  constructor
  · intro e he
    simp [retrieve_and_rerank, ensureIndex, retrieveAfterRewrite, he]
  · intro emb e hok herr
    simp [retrieve_and_rerank, ensureIndex, retrieveAfterRewrite, hok, herr]

/-- Claim C6 witness: propagation at a concrete environment whose embedding
call fails. -/
theorem retrieval_error_propagates_witness :
    (retrieve_and_rerank envRetry stateAB "q" 10 3).1 = .error .externalFailure :=
  (retrieval_error_propagates envRetry stateAB idxAB "q" 10 3 rfl).1 ()
    (by with_unfolding_all decide)

/-- Claim C6 counterexample: the embedding call fails on its single attempt;
a second attempt would have succeeded (the environment answers attempt 1 with
a vector), yet the pipeline fails — the orchestrator performs no retry before
failing, contrary to the claimed retry-once-with-backoff behaviour. -/
theorem no_retry_on_embed_failure_cex :
    (retrieve_and_rerank envRetry ⟨[], none⟩ "q" 10 3).1 = .error .externalFailure
    ∧ envRetry.encodeResp 1 (rewrite_query envRetry.genText "q") = .ok [1] := by
  exact ⟨by with_unfolding_all decide, by with_unfolding_all decide⟩

/-- Claim C7 (evaluation at the failing input): with an empty dataset file the
first pipeline call fails fast, but with Python's `ZeroDivisionError` raised
by `BM25Okapi.__init__` (`num_doc / corpus_size` with `corpus_size = 0`), not
with a descriptive "nothing indexed" error. -/
theorem empty_corpus_zero_division_eval :
    (retrieve_and_rerank envEmptyCorpus ⟨[], none⟩ "q" 10 3).1 = .error .zeroDivision := by
  with_unfolding_all decide

/-- Claim C8: with an unchanged corpus file and identical external-service
responses, running `retrieve_and_rerank` a second time from the state the
first run produced returns exactly the first run's result: the pipeline is a
deterministic function of its inputs and the lazily built index is reused
consistently. -/
theorem retrieve_and_rerank_deterministic (env : Env) (st : PipeState)
    (question : String) (topK finalK : ℕ) :
    (retrieve_and_rerank env (retrieve_and_rerank env st question topK finalK).2
        question topK finalK).1 =
      (retrieve_and_rerank env st question topK finalK).1 := by
  rcases st with ⟨corpusG, bm25G⟩
  cases bm25G with
  | some idx => rfl
  | none =>
    cases hbuild : buildOkapi env.logF (env.fileData.map simple_tokenizer) with
    | error e => simp [retrieve_and_rerank, ensureIndex, hbuild]
    | ok idx => simp [retrieve_and_rerank, ensureIndex, hbuild]

/-- Claim C9: context selection is pure truncation: the selected list has
length `min finalK n`, its `i`-th entry (for `i < finalK`) is the content of
the `i`-th reranked result, and when fewer than `finalK` results exist all of
them are returned in order. -/
theorem select_truncation (reranked : List (String × ℚ)) (finalK : ℕ) :
    (select_final reranked finalK).length = min finalK reranked.length
    ∧ (∀ i : ℕ, i < finalK →
        (select_final reranked finalK)[i]? = (reranked[i]?).map Prod.fst)
    ∧ (reranked.length ≤ finalK → select_final reranked finalK = reranked.map Prod.fst) := by
  refine ⟨by simp [select_final], ?_, ?_⟩
  · intro i hi
    simp only [select_final]
    rw [List.getElem?_map, List.getElem?_take_of_lt hi]
  · intro hle
    simp [select_final, List.take_of_length_le hle]

/-- Claim C9 witness: selection with `finalK = 3` over a two-element reranked
list returns both entries in order. -/
theorem select_truncation_witness :
    (select_final [("a", (1 : ℚ)), ("b", 2)] 3)[0]? = some "a"
    ∧ select_final [("a", (1 : ℚ)), ("b", 2)] 3 = ["a", "b"] := by
  constructor
  · have h := (select_truncation [("a", (1 : ℚ)), ("b", 2)] 3).2.1 0 (by decide)
    rw [h]
    rfl
  · have h := (select_truncation [("a", (1 : ℚ)), ("b", 2)] 3).2.2 (by decide)
    rw [h]
    rfl

/-- Claim C10: a concrete run in which the chunk text `"dup content"` is
returned both by the dense search (id `dense_0`) and by the lexical search
(content-hash key): the two hits never merge during fusion, both survive the
rerank pool and final selection, and the final context contains the same
passage text twice. -/
theorem duplicate_context_eval :
    (retrieve_and_rerank envDup ⟨[], none⟩ "q" 10 3).1 =
      .ok ["dup content", "dup content"] := by
  with_unfolding_all decide

end RagSpec
